import Mathlib

/-!
# kick-monitor: verification of the ingestion/report core

A shallow embedding, in Lean, of the parts of the `kick-monitor` Go
repository that the verified properties speak about:

* the text normaliser and Jaccard similarity (`util` package:
  `NormalizeChatMessage`, `JaccardSimilarity`, `UniqueSortedTimes`),
* the chat-event attribution decision of `handleWebSocketMessage`
  (livestream-state registry freshness test),
* the report engine `GenerateLivestreamReport`: report windowing,
  viewer-count timeline, viewer analytics, exact-duplicate burst
  detection and the duplicate-message count.

Modelling conventions:

* Go `time.Time` values are modelled as seconds (a `Nat`) since the zero
  time; `Time.Truncate(d)` on these is `t / d * d` (Go truncates toward
  the zero time, and all times of interest lie after it).
* Go `string` is modelled as `List Char`; Go `int` as `Int`.
* Go `float64` results of `JaccardSimilarity` are modelled in `ℚ`: the
  quantities the claims mention (`0`, `1`, small-integer ratios produced
  and compared exactly) are exact in both models.
* Database queries are modelled by passing the rows they would return as
  explicit lists, in the query's order where it matters.
-/

namespace KickMonitor

/-! ## Configuration constants (monitor.go `const` block), in seconds -/

def FetchInterval : Nat := 120
def LivestreamFreshnessLeeway : Nat := 20
/-- Viewer count timeline interval (2 min). -/
def ReportTimeBlock : Nat := 120
/-- Message count timeline interval (10 min). -/
def MessageTimelineBlock : Nat := 600
def ExactDuplicateBurstWindow : Nat := 5
def ExactDuplicateBurstMinCount : Nat := 3

/-! ## Text normalisation (`util.NormalizeChatMessage`)

Go's pipeline is `strings.ToLower`, then `strings.TrimSpace`, then
`regexp \s+ -> " "`.  `strings.ToLower` lower-cases (for the characters
relevant here, ASCII `A`..`Z` map to `a`..`z`, everything else in the
ASCII plane is untouched); `strings.TrimSpace` trims characters with the
Unicode `White_Space` property; the RE2 class `\s` is exactly
`[\t\n\f\r ]`. -/

/-- Go `unicode.IsSpace`: the Unicode `White_Space` property. -/
def isUnicodeSpace (c : Char) : Bool :=
  c.toNat = 0x9 ∨ c.toNat = 0xA ∨ c.toNat = 0xB ∨ c.toNat = 0xC ∨ c.toNat = 0xD ∨
  c.toNat = 0x20 ∨ c.toNat = 0x85 ∨ c.toNat = 0xA0 ∨ c.toNat = 0x1680 ∨
  (0x2000 ≤ c.toNat ∧ c.toNat ≤ 0x200A) ∨ c.toNat = 0x2028 ∨ c.toNat = 0x2029 ∨
  c.toNat = 0x202F ∨ c.toNat = 0x205F ∨ c.toNat = 0x3000

/-- The RE2 character class `\s`, i.e. `[\t\n\f\r ]`. -/
def isRe2Space (c : Char) : Bool :=
  c.toNat = 0x9 ∨ c.toNat = 0xA ∨ c.toNat = 0xC ∨ c.toNat = 0xD ∨ c.toNat = 0x20

/-- ASCII lower-casing of one character (the `strings.ToLower` action on
the code points that occur in chat bodies and in all inputs considered
here). -/
def toLowerGo (c : Char) : Char :=
  if 65 ≤ c.toNat ∧ c.toNat ≤ 90 then Char.ofNat (c.toNat + 32) else c

/-- `strings.TrimSpace`: drop leading and trailing Unicode white space. -/
def trimSpace (l : List Char) : List Char :=
  ((l.dropWhile isUnicodeSpace).reverse.dropWhile isUnicodeSpace).reverse

/-- `regexp.MustCompile(` the class `\s+` `).ReplaceAllString(s, " ")`:
replace every maximal run of RE2 white space by a single `' '`.  The
boolean state records whether the previous character belonged to a run
already replaced. -/
def collapseSpaces : Bool → List Char → List Char
  | _, [] => []
  | prevSpace, c :: rest =>
    if isRe2Space c then
      if prevSpace then collapseSpaces true rest
      else ' ' :: collapseSpaces true rest
    else c :: collapseSpaces false rest

/-- `util.NormalizeChatMessage`: lower-case, trim, collapse white space. -/
def normalizeChatMessage (l : List Char) : List Char :=
  collapseSpaces false (trimSpace (l.map toLowerGo))

/-! ## Jaccard similarity (`util.JaccardSimilarity`) -/

/-- `strings.Fields`: split around maximal runs of Unicode white space.
The accumulator holds the current word, reversed. -/
def fieldsAux : List Char → List Char → List (List Char)
  | acc, [] => if acc.isEmpty then [] else [acc.reverse]
  | acc, c :: rest =>
    if isUnicodeSpace c then
      if acc.isEmpty then fieldsAux [] rest
      else acc.reverse :: fieldsAux [] rest
    else fieldsAux (c :: acc) rest

def goFields (l : List Char) : List (List Char) := fieldsAux [] l

/-- `util.JaccardSimilarity`: token sets of the two inputs, then
`|intersection| / (|set1| + |set2| - |intersection|)`, with the two
empty-input special cases. -/
def jaccardSimilarity (s1 s2 : List Char) : ℚ :=
  let words1 := goFields s1
  let words2 := goFields s2
  if words1.isEmpty ∧ words2.isEmpty then 1
  else if words1.isEmpty ∨ words2.isEmpty then 0
  else
    let set1 := words1.toFinset
    let set2 := words2.toFinset
    let inter := (set1 ∩ set2).card
    let union := set1.card + set2.card - inter
    if union = 0 then 0
    else (inter : ℚ) / (union : ℚ)

/-! ## Livestream-state registry and chat-event attribution
(`handleWebSocketMessage` in monitor.go) -/

/-- In-memory registry value for one channel (`LatestLivestreamInfo`). -/
structure LatestLivestreamInfo where
  livestreamID : Nat
  fetchTime : Nat
  isLive : Bool
deriving DecidableEq

/-- The `currentLivestreamID` computed at the top of
`handleWebSocketMessage`: non-null exactly when a registry entry exists
for the channel, it reports a live stream, and
`time.Since(FetchTime) ≤ FetchInterval + LivestreamFreshnessLeeway`.
This value is stored as the `ChatMessage.LivestreamID` column of every
chat event persisted from the message.  (`now - fetchTime` is `Nat`
subtraction; Go's signed duration also satisfies the bound whenever the
fetch time is not in the past beyond the leeway.) -/
def attributedLivestreamID (registryEntry : Option LatestLivestreamInfo) (now : Nat) :
    Option Nat :=
  match registryEntry with
  | none => none
  | some info =>
    if info.isLive = true ∧ now - info.fetchTime ≤ FetchInterval + LivestreamFreshnessLeeway
    then some info.livestreamID
    else none

/-! ## Data model of the report engine -/

/-- A persisted chat event, restricted to the columns
`GenerateLivestreamReport` reads (`models.ChatMessage`). -/
structure ChatMessage where
  senderID : Int
  senderUsername : List Char
  message : List Char
  /-- `MessageSendTime`, seconds since the zero time. -/
  sentAt : Nat
deriving DecidableEq

/-- A persisted livestream snapshot, restricted to the columns the
report engine reads (`models.LivestreamData`): the row's `created_at`
and its viewer count. -/
structure LivestreamData where
  createdAt : Nat
  viewerCount : Int
deriving DecidableEq

structure ViewerCountPoint where
  time : Nat
  count : Int
deriving DecidableEq

structure ExactDuplicateBurstReport where
  username : List Char
  content : List Char
  count : Nat
  timestamps : List Nat
deriving DecidableEq

inductive ReportError where
  | noData
deriving DecidableEq

/-- The fields of `models.LivestreamReport` and `models.SpamReport` that
the verified properties mention. -/
structure Report where
  reportStartTime : Nat
  reportEndTime : Nat
  durationMinutes : Nat
  viewerTimeline : List ViewerCountPoint
  averageViewers : Int
  peakViewers : Int
  lowestViewers : Int
  exactDuplicateBursts : List ExactDuplicateBurstReport
  duplicateMessagesCount : Nat
deriving DecidableEq

/-! ## `util.UniqueSortedTimes`

The Go function keys a map by the RFC3339Nano rendering of each time
(identical instants collapse), then sorts the values with `Before`: the
result is the ascending list of the distinct instants. -/

def insertTime (t : Nat) : List Nat → List Nat
  | [] => [t]
  | x :: xs => if t ≤ x then t :: x :: xs else x :: insertTime t xs

def dedupFirst {α : Type} [DecidableEq α] : List α → List α
  | [] => []
  | x :: xs => x :: (dedupFirst xs).filter (fun y => y ≠ x)

def uniqueSortedTimes (l : List Nat) : List Nat :=
  (dedupFirst l).foldr insertTime []

/-! ## Exact-duplicate burst detection

The per-sender pass of `GenerateLivestreamReport`: for each anchor
index `i`, the inner `j` loop walks forward while
`t_j - t_i ≤ ExactDuplicateBurstWindow`, counting the events whose
normalised body equals the anchor's; if the count meets the threshold a
burst record is emitted and `i` advances past the burst
(`i += count - 1` before the loop increment, i.e. to `i + count`). -/

/-- Timestamps (in order) of the events matching the anchor inside the
window; the walk stops at the first event beyond the window. -/
def exactMatchesIn (anchor : ChatMessage) : List ChatMessage → List Nat
  | [] => []
  | m :: ms =>
    if m.sentAt - anchor.sentAt ≤ ExactDuplicateBurstWindow then
      if normalizeChatMessage m.message = normalizeChatMessage anchor.message
      then m.sentAt :: exactMatchesIn anchor ms
      else exactMatchesIn anchor ms
    else []

def exactDuplicatePass : List ChatMessage → List ExactDuplicateBurstReport
  | [] => []
  | m :: rest =>
    let ts := exactMatchesIn m rest
    let burstCount := 1 + ts.length
    if ExactDuplicateBurstMinCount ≤ burstCount then
      { username := m.senderUsername
        content := m.message
        count := burstCount
        timestamps := uniqueSortedTimes (m.sentAt :: ts) } ::
        exactDuplicatePass (rest.drop (burstCount - 1))
    else
      exactDuplicatePass rest
termination_by l => l.length
decreasing_by
  all_goals simp only [List.length_cons, List.length_drop]
  all_goals omega

/-- `userMessageHistory`: group the events by `SenderID` (groups listed
by first appearance; the Go map's iteration order is arbitrary), each
group in persisted order. -/
def groupBySender (messages : List ChatMessage) : List (Int × List ChatMessage) :=
  (dedupFirst (messages.map (fun m => m.senderID))).map
    (fun sid => (sid, messages.filter (fun m => m.senderID = sid)))

/-- `sort.Slice` of one sender's events by `MessageSendTime.Before`
(modelled as a stable insertion sort; the Go sort is unstable, ties are
in unspecified order there). -/
def insertBySentAt (m : ChatMessage) : List ChatMessage → List ChatMessage
  | [] => [m]
  | x :: xs => if m.sentAt ≤ x.sentAt then m :: x :: xs else x :: insertBySentAt m xs

def sortBySentAt (l : List ChatMessage) : List ChatMessage :=
  l.foldr insertBySentAt []

/-- `sort.Slice` of the burst list by `Count`, descending. -/
def insertBurst (b : ExactDuplicateBurstReport) :
    List ExactDuplicateBurstReport → List ExactDuplicateBurstReport
  | [] => [b]
  | x :: xs => if x.count ≤ b.count then b :: x :: xs else x :: insertBurst b xs

def sortBurstsByCountDesc (l : List ExactDuplicateBurstReport) :
    List ExactDuplicateBurstReport :=
  l.foldr insertBurst []

/-- All exact-duplicate bursts of a report: per-sender pass over each
time-sorted group, then sorted by count descending. -/
def allExactDuplicateBursts (messages : List ChatMessage) :
    List ExactDuplicateBurstReport :=
  sortBurstsByCountDesc
    ((groupBySender messages).flatMap (fun g => exactDuplicatePass (sortBySentAt g.2)))

/-- `DuplicateMessagesCount`: `processSingleMessage` counts occurrences
of each normalised body (`ExactDuplicateContents`); the report then sums
`count - 1` over the keys with `count > 1`. -/
def duplicateMessagesCount (messages : List ChatMessage) : Nat :=
  let norms := messages.map (fun m => normalizeChatMessage m.message)
  (dedupFirst norms).foldl
    (fun acc k => let c := norms.count k; if 1 < c then acc + (c - 1) else acc) 0

/-! ## Viewer analytics (`calculateViewerAnalytics`) -/

/-- Reduction of an integer into the two's-complement `int64` range
`[-2^63, 2^63 - 1]`: the value a Go `int` variable holds after an
operation whose mathematical result is `n`. -/
def int64Wrap (n : Int) : Int :=
  (n + 9223372036854775808) % 18446744073709551616 - 9223372036854775808

/-- Go `int` addition on a 64-bit platform: wraps on overflow (the Go
specification defines signed overflow as two's-complement wrap-around). -/
def int64Add (a b : Int) : Int := int64Wrap (a + b)

/-- `calculateViewerAnalytics`: with no snapshots all three are zero;
otherwise one loop accumulates `totalViewers` (a Go `int`, so each
`+=` wraps at `int64`), the maximum starting from `0` and the minimum
starting from `math.MaxInt32`; the average is the Go integer
(truncating) division of the accumulated sum by the row count (the
comparison-only maximum/minimum updates involve no arithmetic).  The
single Go loop is rendered as one fold per accumulator. -/
def calculateViewerAnalytics (viewerCounts : List LivestreamData) : Int × Int × Int :=
  if viewerCounts.isEmpty then (0, 0, 0)
  else
    let total := viewerCounts.foldl (fun acc vc => int64Add acc vc.viewerCount) 0
    let peak := viewerCounts.foldl
      (fun p vc => if p < vc.viewerCount then vc.viewerCount else p) 0
    let lowest := viewerCounts.foldl
      (fun lo vc => if vc.viewerCount < lo then vc.viewerCount else lo) 2147483647
    (Int.tdiv total viewerCounts.length, peak, lowest)

/-! ## Viewer-count timeline (`buildViewerCountTimeline`) -/

/-- The backwards scan inside one block: the last snapshot row whose
`created_at` lies in `[lo, hi)`. -/
def lastSnapshotInBlock (vcs : List LivestreamData) (lo hi : Nat) :
    Option LivestreamData :=
  vcs.reverse.find? (fun vc => decide (vc.createdAt < hi) && decide (lo ≤ vc.createdAt))

/-- The `for currentBlockTime.Before(reportEndTime)` loop, carrying the
timeline built so far (the carry-forward branch reads its last point). -/
def vctLoop (vcs : List LivestreamData) (e : Nat) (cur : Nat)
    (acc : List ViewerCountPoint) : List ViewerCountPoint :=
  if cur < e then
    let blockEnd := cur + ReportTimeBlock
    let cnt : Int :=
      match lastSnapshotInBlock vcs cur blockEnd with
      | some vc => vc.viewerCount
      | none =>
        match acc.getLast? with
        | some p => p.count
        | none => 0
    vctLoop vcs e blockEnd (acc ++ [⟨cur, cnt⟩])
  else acc
termination_by e - cur
decreasing_by simp only [ReportTimeBlock]; omega

/-- `buildViewerCountTimeline`: empty when no snapshot rows were
fetched; otherwise one point per `ReportTimeBlock` from the truncated
start up to the end. -/
def buildViewerCountTimeline (vcs : List LivestreamData) (s e : Nat) :
    List ViewerCountPoint :=
  if vcs.isEmpty then []
  else vctLoop vcs e (s / ReportTimeBlock * ReportTimeBlock) []

/-! ## `GenerateLivestreamReport` -/

def minSentAt (m : ChatMessage) (ms : List ChatMessage) : Nat :=
  ms.foldl (fun a x => min a x.sentAt) m.sentAt

def maxSentAt (m : ChatMessage) (ms : List ChatMessage) : Nat :=
  ms.foldl (fun a x => max a x.sentAt) m.sentAt

/-- The snapshot-fetch query: rows of the channel with
`created_at ∈ [reportStartTime - ReportTimeBlock, reportEndTime + ReportTimeBlock]`
(`Nat` subtraction; the lower bound clamps at the zero time, which no
realistic `reportStartTime` reaches). -/
def viewerCountsFor (snapshots : List LivestreamData) (s e : Nat) :
    List LivestreamData :=
  snapshots.filter
    (fun vc => decide (s - ReportTimeBlock ≤ vc.createdAt) &&
      decide (vc.createdAt ≤ e + ReportTimeBlock))

/-- The report computation, from the rows the queries return:
`startTimeQuery` is the minimum `start_time` over the livestream's
`livestream_data` rows (`none` models `ErrRecordNotFound`), `chat` the
livestream's chat events, `snapshots` the channel's snapshot rows.
With no chat events the `MIN/MAX(message_send_time)` scan fails and the
report aborts (`NoData`).  The source also fetches and clamps
`streamActualStartTime` from `startTimeQuery`, but never reads that
variable again: it does not influence any report field.  Fields of the
real report not mentioned by any verified property (message timeline,
engagement, hours watched, per-message counters other than the
duplicate count) are omitted. -/
def generateLivestreamReport (_startTimeQuery : Option Nat)
    (chat : List ChatMessage) (snapshots : List LivestreamData) :
    Except ReportError Report :=
  match chat with
  | [] => .error .noData
  | m :: ms =>
    let minT := minSentAt m ms
    let maxT := maxSentAt m ms
    let reportStartTime := minT / MessageTimelineBlock * MessageTimelineBlock
    let reportEndTime := (maxT + MessageTimelineBlock) / MessageTimelineBlock * MessageTimelineBlock
    let durationMinutes := (reportEndTime - reportStartTime) / 60
    let viewerCounts := viewerCountsFor snapshots reportStartTime reportEndTime
    let timeline := buildViewerCountTimeline viewerCounts reportStartTime reportEndTime
    let analytics := calculateViewerAnalytics viewerCounts
    .ok
      { reportStartTime := reportStartTime
        reportEndTime := reportEndTime
        durationMinutes := durationMinutes
        viewerTimeline := timeline
        averageViewers := analytics.1
        peakViewers := analytics.2.1
        lowestViewers := analytics.2.2
        exactDuplicateBursts := allExactDuplicateBursts chat
        duplicateMessagesCount := duplicateMessagesCount chat }

/-- Rounding up to a multiple of `b`: the `ceil(·, b)` the specification
uses for the window end. -/
def ceilBlock (t b : Nat) : Nat := (t + b - 1) / b * b

/-- Ceiling division, the `ceil((window_end - window_start)/viewer_block)`
of the specification. -/
def ceilDiv (a b : Nat) : Nat := (a + b - 1) / b

/-- The sequence of block start times the timeline loop visits:
`cur, cur + ReportTimeBlock, …` while below `e`. -/
def blockTimes (cur e : Nat) : List Nat :=
  if cur < e then cur :: blockTimes (cur + ReportTimeBlock) e else []
termination_by e - cur
decreasing_by simp only [ReportTimeBlock]; omega

/-! ## Concrete inputs used by counterexamples and witnesses -/

/-- Two chat events whose latest `sent_at` (42 s) is not aligned to the
10-minute block. -/
def twoEventsAt15and42 : List ChatMessage :=
  [⟨1, "a".toList, "x".toList, 15⟩, ⟨1, "a".toList, "y".toList, 42⟩]

/-- Sender `alice`: bodies `"GG"`, `"gg  "`, `"GG"` at offsets 0 s, 2 s,
4 s (specification §8, scenario 2). -/
def aliceEvents : List ChatMessage :=
  [⟨1, "alice".toList, "GG".toList, 0⟩,
   ⟨1, "alice".toList, "gg  ".toList, 2⟩,
   ⟨1, "alice".toList, "GG".toList, 4⟩]

/-- A single chat event at the zero offset. -/
def oneEventAt0 : List ChatMessage := [⟨1, "a".toList, "m".toList, 0⟩]

/-- A single viewer snapshot at the zero offset with 5 viewers. -/
def oneSnapshotAt0 : List LivestreamData := [⟨0, 5⟩]

/-- A single snapshot whose viewer count exceeds `math.MaxInt32`. -/
def hugeSnapshot : List LivestreamData := [⟨0, 3000000000⟩]

/-- Two snapshots of `8·10^18` viewers each: both counts are
nonnegative and `int64`-representable, but their sum overflows the Go
`int` accumulator. -/
def twoHugeSnapshots : List LivestreamData :=
  [⟨0, 8000000000000000000⟩, ⟨60, 8000000000000000000⟩]

/-- A chat event at 720 s (12 min), with an earlier livestream
`start_time` of 300 s (5 min) available from `livestream_data`. -/
def eventAt720 : List ChatMessage := [⟨1, "a".toList, "m".toList, 720⟩]

/-! ## Lemmas about the viewer-count timeline -/

theorem blockTimes_of_lt {cur e : Nat} (h : cur < e) :
    blockTimes cur e = cur :: blockTimes (cur + ReportTimeBlock) e := by
  rw [blockTimes]
  simp [h]

theorem blockTimes_of_ge {cur e : Nat} (h : e ≤ cur) :
    blockTimes cur e = [] := by
  rw [blockTimes]
  simp [Nat.not_lt.mpr h]

theorem blockTimes_length_aux (gas : Nat) :
    ∀ cur e, e - cur ≤ gas →
      (blockTimes cur e).length = ceilDiv (e - cur) ReportTimeBlock := by
  induction gas with
  | zero =>
    intro cur e h
    rw [blockTimes_of_ge (by omega)]
    simp only [ceilDiv, ReportTimeBlock, List.length_nil]
    omega
  | succ n ih =>
    intro cur e h
    by_cases hc : cur < e
    · rw [blockTimes_of_lt hc, List.length_cons,
        ih (cur + ReportTimeBlock) e (by simp only [ReportTimeBlock]; omega)]
      simp only [ceilDiv, ReportTimeBlock]
      omega
    · rw [blockTimes_of_ge (by omega)]
      simp only [ceilDiv, ReportTimeBlock, List.length_nil]
      omega

theorem blockTimes_length (cur e : Nat) :
    (blockTimes cur e).length = ceilDiv (e - cur) ReportTimeBlock :=
  blockTimes_length_aux (e - cur) cur e le_rfl

theorem blockTimes_chain_aux (gas : Nat) :
    ∀ cur e, e - cur ≤ gas →
      List.Chain' (fun a b => a < b) (blockTimes cur e) := by
  induction gas with
  | zero =>
    intro cur e h
    rw [blockTimes_of_ge (by omega)]
    exact List.chain'_nil
  | succ n ih =>
    intro cur e h
    by_cases hc : cur < e
    · rw [blockTimes_of_lt hc]
      refine List.chain'_cons'.mpr ⟨?_, ih (cur + ReportTimeBlock) e
        (by simp only [ReportTimeBlock]; omega)⟩
      intro y hy
      by_cases hc2 : cur + ReportTimeBlock < e
      · rw [blockTimes_of_lt hc2] at hy
        simp only [List.head?_cons, Option.mem_def, Option.some.injEq,
          ReportTimeBlock] at hy
        omega
      · rw [blockTimes_of_ge (by omega)] at hy
        simp at hy
    · rw [blockTimes_of_ge (by omega)]
      exact List.chain'_nil

theorem blockTimes_chain (cur e : Nat) :
    List.Chain' (fun a b => a < b) (blockTimes cur e) :=
  blockTimes_chain_aux (e - cur) cur e le_rfl

theorem vctLoop_map_time_aux (vcs : List LivestreamData) (e : Nat) (gas : Nat) :
    ∀ cur acc, e - cur ≤ gas →
      (vctLoop vcs e cur acc).map ViewerCountPoint.time =
        acc.map ViewerCountPoint.time ++ blockTimes cur e := by
  induction gas with
  | zero =>
    intro cur acc h
    rw [vctLoop, blockTimes_of_ge (by omega)]
    simp [Nat.not_lt.mpr (show e ≤ cur by omega)]
  | succ n ih =>
    intro cur acc h
    by_cases hc : cur < e
    · rw [vctLoop]
      simp only [if_pos hc]
      rw [ih (cur + ReportTimeBlock) _ (by simp only [ReportTimeBlock]; omega),
        blockTimes_of_lt hc]
      simp
    · rw [vctLoop, blockTimes_of_ge (by omega)]
      simp [hc]

theorem vctLoop_map_time (vcs : List LivestreamData) (e cur : Nat)
    (acc : List ViewerCountPoint) :
    (vctLoop vcs e cur acc).map ViewerCountPoint.time =
      acc.map ViewerCountPoint.time ++ blockTimes cur e :=
  vctLoop_map_time_aux vcs e (e - cur) cur acc le_rfl

theorem buildViewerCountTimeline_map_time {vcs : List LivestreamData} (s e : Nat)
    (h : vcs ≠ []) :
    (buildViewerCountTimeline vcs s e).map ViewerCountPoint.time =
      blockTimes (s / ReportTimeBlock * ReportTimeBlock) e := by
  rw [buildViewerCountTimeline, if_neg (by simpa [List.isEmpty_iff] using h)]
  simpa using vctLoop_map_time vcs e (s / ReportTimeBlock * ReportTimeBlock) []

theorem buildViewerCountTimeline_chain (vcs : List LivestreamData) (s e : Nat) :
    List.Chain' (fun a b => a < b)
      ((buildViewerCountTimeline vcs s e).map ViewerCountPoint.time) := by
  by_cases h : vcs = []
  · subst h
    rw [buildViewerCountTimeline]
    simp
  · rw [buildViewerCountTimeline_map_time s e h]
    exact blockTimes_chain _ _

theorem buildViewerCountTimeline_length {vcs : List LivestreamData} (s e : Nat)
    (h : vcs ≠ []) :
    (buildViewerCountTimeline vcs s e).length =
      ceilDiv (e - s / ReportTimeBlock * ReportTimeBlock) ReportTimeBlock := by
  have hm := congrArg List.length (buildViewerCountTimeline_map_time s e h)
  simpa [blockTimes_length] using hm

/-- A window start produced by 10-minute truncation is already aligned
to the 2-minute viewer block. -/
theorem tenMinAligned (n : Nat) :
    n / MessageTimelineBlock * MessageTimelineBlock / ReportTimeBlock * ReportTimeBlock =
      n / MessageTimelineBlock * MessageTimelineBlock := by
  simp only [MessageTimelineBlock, ReportTimeBlock]
  omega

/-! ## Lemmas about the viewer-analytics folds -/

theorem peakFold_ge_init (l : List LivestreamData) :
    ∀ init : Int,
      init ≤ l.foldl (fun p vc => if p < vc.viewerCount then vc.viewerCount else p) init := by
  induction l with
  | nil => intro init; simp
  | cons x xs ih =>
    intro init
    simp only [List.foldl_cons]
    refine le_trans ?_ (ih _)
    by_cases h : init < x.viewerCount
    · simp only [if_pos h]
      exact le_of_lt h
    · simp only [if_neg h]
      exact le_refl init

theorem peakFold_ge_mem (l : List LivestreamData) (x : LivestreamData) (hx : x ∈ l) :
    ∀ init : Int,
      x.viewerCount ≤ l.foldl (fun p vc => if p < vc.viewerCount then vc.viewerCount else p) init := by
  induction l with
  | nil => cases hx
  | cons y ys ih =>
    intro init
    simp only [List.foldl_cons]
    rcases List.mem_cons.mp hx with h | hmem
    · subst h
      refine le_trans ?_ (peakFold_ge_init ys _)
      by_cases h : init < x.viewerCount
      · simp only [if_pos h]
        exact le_refl _
      · simp only [if_neg h]
        omega
    · exact ih hmem _

theorem peakFold_eq_init_or_mem (l : List LivestreamData) :
    ∀ init : Int,
      l.foldl (fun p vc => if p < vc.viewerCount then vc.viewerCount else p) init = init ∨
        ∃ x ∈ l,
          l.foldl (fun p vc => if p < vc.viewerCount then vc.viewerCount else p) init =
            x.viewerCount := by
  induction l with
  | nil => intro init; left; rfl
  | cons y ys ih =>
    intro init
    simp only [List.foldl_cons]
    by_cases h : init < y.viewerCount
    · simp only [if_pos h]
      rcases ih y.viewerCount with heq | ⟨x, hx, heq⟩
      · right; exact ⟨y, List.mem_cons_self y ys, heq⟩
      · right; exact ⟨x, List.mem_cons_of_mem y hx, heq⟩
    · simp only [if_neg h]
      rcases ih init with heq | ⟨x, hx, heq⟩
      · left; exact heq
      · right; exact ⟨x, List.mem_cons_of_mem y hx, heq⟩

theorem lowFold_le_init (l : List LivestreamData) :
    ∀ init : Int,
      l.foldl (fun lo vc => if vc.viewerCount < lo then vc.viewerCount else lo) init ≤ init := by
  induction l with
  | nil => intro init; simp
  | cons x xs ih =>
    intro init
    simp only [List.foldl_cons]
    refine le_trans (ih _) ?_
    by_cases h : x.viewerCount < init
    · simp only [if_pos h]
      exact le_of_lt h
    · simp only [if_neg h]
      exact le_refl init

theorem lowFold_le_mem (l : List LivestreamData) (x : LivestreamData) (hx : x ∈ l) :
    ∀ init : Int,
      l.foldl (fun lo vc => if vc.viewerCount < lo then vc.viewerCount else lo) init ≤
        x.viewerCount := by
  induction l with
  | nil => cases hx
  | cons y ys ih =>
    intro init
    simp only [List.foldl_cons]
    rcases List.mem_cons.mp hx with h | hmem
    · subst h
      refine le_trans (lowFold_le_init ys _) ?_
      by_cases h : x.viewerCount < init
      · simp only [if_pos h]
        exact le_refl _
      · simp only [if_neg h]
        omega
    · exact ih hmem _

theorem lowFold_eq_init_or_mem (l : List LivestreamData) :
    ∀ init : Int,
      l.foldl (fun lo vc => if vc.viewerCount < lo then vc.viewerCount else lo) init = init ∨
        ∃ x ∈ l,
          l.foldl (fun lo vc => if vc.viewerCount < lo then vc.viewerCount else lo) init =
            x.viewerCount := by
  induction l with
  | nil => intro init; left; rfl
  | cons y ys ih =>
    intro init
    simp only [List.foldl_cons]
    by_cases h : y.viewerCount < init
    · simp only [if_pos h]
      rcases ih y.viewerCount with heq | ⟨x, hx, heq⟩
      · right; exact ⟨y, List.mem_cons_self y ys, heq⟩
      · right; exact ⟨x, List.mem_cons_of_mem y hx, heq⟩
    · simp only [if_neg h]
      rcases ih init with heq | ⟨x, hx, heq⟩
      · left; exact heq
      · right; exact ⟨x, List.mem_cons_of_mem y hx, heq⟩

theorem sumFold_le (l : List LivestreamData) (M : Int) (hM : ∀ x ∈ l, x.viewerCount ≤ M) :
    ∀ a : Int,
      l.foldl (fun acc vc => acc + vc.viewerCount) a ≤ a + l.length * M := by
  induction l with
  | nil => intro a; simp
  | cons y ys ih =>
    intro a
    simp only [List.foldl_cons, List.length_cons]
    have h1 := ih (fun x hx => hM x (List.mem_cons_of_mem y hx)) (a + y.viewerCount)
    have h2 : y.viewerCount ≤ M := hM y (List.mem_cons_self y ys)
    have h3 : ((ys.length + 1 : Nat) : Int) = (ys.length : Int) + 1 := by push_cast; ring
    rw [h3]
    nlinarith [h1, h2]

theorem sumFold_ge (l : List LivestreamData) (m : Int) (hm : ∀ x ∈ l, m ≤ x.viewerCount) :
    ∀ a : Int,
      a + l.length * m ≤ l.foldl (fun acc vc => acc + vc.viewerCount) a := by
  induction l with
  | nil => intro a; simp
  | cons y ys ih =>
    intro a
    simp only [List.foldl_cons, List.length_cons]
    have h1 := ih (fun x hx => hm x (List.mem_cons_of_mem y hx)) (a + y.viewerCount)
    have h2 : m ≤ y.viewerCount := hm y (List.mem_cons_self y ys)
    have h3 : ((ys.length + 1 : Nat) : Int) = (ys.length : Int) + 1 := by push_cast; ring
    rw [h3]
    nlinarith [h1, h2]

/-! ## Bounds on Go's truncating integer division, for nonnegative data -/

theorem ofNat_tdiv (a b : Nat) : Int.tdiv (a : Int) (b : Int) = ((a / b : Nat) : Int) := rfl

theorem le_tdiv_bound {a b lo : Int} (hb : 0 < b) (hlo : 0 ≤ lo) (h : lo * b ≤ a) :
    lo ≤ Int.tdiv a b := by
  have ha : 0 ≤ a := le_trans (by positivity) h
  obtain ⟨A, rfl⟩ := Int.eq_ofNat_of_zero_le ha
  obtain ⟨B, rfl⟩ := Int.eq_ofNat_of_zero_le (le_of_lt hb)
  obtain ⟨L, rfl⟩ := Int.eq_ofNat_of_zero_le hlo
  rw [ofNat_tdiv]
  have hB : 0 < B := by exact_mod_cast hb
  have hLB : L * B ≤ A := by exact_mod_cast h
  exact_mod_cast (Nat.le_div_iff_mul_le hB).mpr hLB

theorem tdiv_le_bound {a b hi : Int} (ha : 0 ≤ a) (hb : 0 < b) (h : a ≤ b * hi) :
    Int.tdiv a b ≤ hi := by
  have hhi : 0 ≤ hi := by nlinarith
  obtain ⟨A, rfl⟩ := Int.eq_ofNat_of_zero_le ha
  obtain ⟨B, rfl⟩ := Int.eq_ofNat_of_zero_le (le_of_lt hb)
  obtain ⟨H, rfl⟩ := Int.eq_ofNat_of_zero_le hhi
  rw [ofNat_tdiv]
  have hB : 0 < B := by exact_mod_cast hb
  have hAB : A ≤ B * H := by exact_mod_cast h
  have : A / B < H + 1 := by
    rw [Nat.div_lt_iff_lt_mul hB]
    calc A ≤ B * H := hAB
    _ < (H + 1) * B := by nlinarith
  exact_mod_cast Nat.lt_succ_iff.mp this

theorem buildViewerCountTimeline_nil (s e : Nat) :
    buildViewerCountTimeline [] s e = [] := rfl

/-! ## Claim theorems -/

/-- C1, counterexample: with chat events at 15 s and 42 s the generated
window is `[0, 600]`, while `ceil(max_t + 10 min, 10 min)` would be
`1200`: the code truncates `max_t + message_block` down to the block, it
does not round it up. -/
theorem reportWindowEnd_ceil_counterexample :
    (generateLivestreamReport none twoEventsAt15and42 []).map
        (fun r => (r.reportStartTime, r.reportEndTime)) = .ok (0, 600) ∧
      maxSentAt ⟨1, "a".toList, "x".toList, 15⟩ [⟨1, "a".toList, "y".toList, 42⟩] = 42 ∧
      ceilBlock (42 + MessageTimelineBlock) MessageTimelineBlock = 1200 ∧
      (600 : Nat) ≠ 1200 := by
  refine ⟨?_, by simp [maxSentAt], by simp [ceilBlock, MessageTimelineBlock], by decide⟩
  simp [generateLivestreamReport, twoEventsAt15and42, minSentAt, maxSentAt,
    MessageTimelineBlock, Except.map]

/-- C1 (amended): for every livestream with at least one chat event the
report's window bounds are `window_start = floor(min_t, 10 min)` and
`window_end = floor(max_t + 10 min, 10 min)`, over the minimum and
maximum `sent_at` of the livestream's chat events. -/
theorem reportWindow_floor_bounds (sq : Option Nat) (m : ChatMessage)
    (ms : List ChatMessage) (snaps : List LivestreamData) (r : Report)
    (h : generateLivestreamReport sq (m :: ms) snaps = .ok r) :
    r.reportStartTime = minSentAt m ms / MessageTimelineBlock * MessageTimelineBlock ∧
      r.reportEndTime =
        (maxSentAt m ms + MessageTimelineBlock) / MessageTimelineBlock *
          MessageTimelineBlock := by
  simp only [generateLivestreamReport, Except.ok.injEq] at h
  subst h
  exact ⟨rfl, rfl⟩

/-- C1, witness: the amended bounds evaluated on the two-event input. -/
theorem reportWindow_floor_bounds_witness :
    (0 : Nat) = minSentAt ⟨1, "a".toList, "x".toList, 15⟩ [⟨1, "a".toList, "y".toList, 42⟩] /
        MessageTimelineBlock * MessageTimelineBlock ∧
      (600 : Nat) =
        (maxSentAt ⟨1, "a".toList, "x".toList, 15⟩ [⟨1, "a".toList, "y".toList, 42⟩] +
            MessageTimelineBlock) / MessageTimelineBlock * MessageTimelineBlock := by
  have h := reportWindow_floor_bounds none ⟨1, "a".toList, "x".toList, 15⟩
    [⟨1, "a".toList, "y".toList, 42⟩] []
    ⟨0, 600, 10, [], 0, 0, 0, [], 0⟩
    (by simp [generateLivestreamReport, minSentAt, maxSentAt, MessageTimelineBlock,
      viewerCountsFor, buildViewerCountTimeline, calculateViewerAnalytics,
      allExactDuplicateBursts, groupBySender, dedupFirst, sortBySentAt, insertBySentAt,
      exactDuplicatePass, exactMatchesIn, ExactDuplicateBurstWindow,
      ExactDuplicateBurstMinCount, uniqueSortedTimes, insertTime, dedupFirst,
      sortBurstsByCountDesc, insertBurst, duplicateMessagesCount, normalizeChatMessage,
      trimSpace, collapseSpaces, toLowerGo, isRe2Space, isUnicodeSpace, ReportTimeBlock])
  exact h

/-- C5: report generation fails with `NoData` exactly on an empty chat
event list: with zero persisted events the `MIN/MAX(message_send_time)`
scan fails and the `NoData` failure is returned to the caller; with at
least one event no `NoData` failure occurs and windowing proceeds. -/
theorem report_noData_iff_no_events (sq : Option Nat) (snaps : List LivestreamData)
    (events : List ChatMessage) :
    (events = [] → generateLivestreamReport sq events snaps = .error .noData) ∧
      (events ≠ [] → generateLivestreamReport sq events snaps ≠ .error .noData) := by
  constructor
  · rintro rfl
    rfl
  · intro hne
    match events, hne with
    | m :: ms, _ => simp [generateLivestreamReport]

/-- C5, witness: both directions evaluated on concrete inputs. -/
theorem report_noData_iff_no_events_witness :
    generateLivestreamReport none [] [] = .error .noData ∧
      generateLivestreamReport none oneEventAt0 [] ≠ .error .noData :=
  ⟨(report_noData_iff_no_events none [] []).1 rfl,
    (report_noData_iff_no_events none [] oneEventAt0).2 (by simp [oneEventAt0])⟩

/-- C6: the failing input evaluated.  The source fetches the earliest
livestream-snapshot `start_time` and clamps it into
`streamActualStartTime`, but never reads that variable again: the
generated report's `window_start` ignores it.  Here a `start_time` of
300 s is available and earlier than `floor(min_t, 10 min) = 600`, yet
the report's `window_start` is 600, and the whole report is independent
of the fetched `start_time`. -/
theorem startTime_override_dead :
    (∀ (sq sq' : Option Nat) (chat : List ChatMessage) (snaps : List LivestreamData),
        generateLivestreamReport sq chat snaps = generateLivestreamReport sq' chat snaps) ∧
      (generateLivestreamReport (some 300) eventAt720 []).map
        (fun r => r.reportStartTime) = .ok 600 ∧
      (300 : Nat) < 600 := by
  refine ⟨fun _ _ _ _ => rfl, ?_, by decide⟩
  simp [generateLivestreamReport, eventAt720, minSentAt, maxSentAt,
    MessageTimelineBlock, Except.map]

/-- C8: building the viewer time-series from an empty snapshot list
returns the empty series for every pair of window bounds: no zero-filled
points are emitted even when the window spans one or more viewer
blocks. -/
theorem emptyViewerCounts_empty_series (s e : Nat) :
    buildViewerCountTimeline [] s e = [] := rfl

/-- C2, counterexample: a generated report with no viewer snapshot in
range has an empty `viewer_series` (length 0), although
`ceil((window_end - window_start)/viewer_block) = ceil(600/120) = 5`:
the length clause of the claim fails when no snapshot was fetched. -/
theorem viewerSeries_length_counterexample :
    (generateLivestreamReport none twoEventsAt15and42 []).map
        (fun r => (r.reportStartTime, r.reportEndTime, r.viewerTimeline.length)) =
      .ok (0, 600, 0) ∧
      ceilDiv (600 - 0) ReportTimeBlock = 5 ∧ (0 : Nat) ≠ 5 := by
  refine ⟨?_, by simp [ceilDiv, ReportTimeBlock], by decide⟩
  simp [generateLivestreamReport, twoEventsAt15and42, minSentAt, maxSentAt,
    MessageTimelineBlock, viewerCountsFor, buildViewerCountTimeline, Except.map,
    ReportTimeBlock]

/-- C2 (amended): for every generated report the `viewer_series` is
strictly increasing in its time coordinate; when at least one viewer
snapshot lies in the fetched range its length equals
`ceil((window_end - window_start)/viewer_block)`, and when none does the
series is empty. -/
theorem viewerSeries_monotone_length (sq : Option Nat) (m : ChatMessage)
    (ms : List ChatMessage) (snaps : List LivestreamData) (r : Report)
    (h : generateLivestreamReport sq (m :: ms) snaps = .ok r) :
    List.Chain' (fun a b => a < b) (r.viewerTimeline.map ViewerCountPoint.time) ∧
      (viewerCountsFor snaps r.reportStartTime r.reportEndTime = [] →
        r.viewerTimeline = []) ∧
      (viewerCountsFor snaps r.reportStartTime r.reportEndTime ≠ [] →
        r.viewerTimeline.length =
          ceilDiv (r.reportEndTime - r.reportStartTime) ReportTimeBlock) := by
  simp only [generateLivestreamReport, Except.ok.injEq] at h
  subst h
  dsimp only
  refine ⟨buildViewerCountTimeline_chain _ _ _, ?_, ?_⟩
  · intro h0
    rw [show (viewerCountsFor snaps
        (minSentAt m ms / MessageTimelineBlock * MessageTimelineBlock)
        ((maxSentAt m ms + MessageTimelineBlock) / MessageTimelineBlock *
          MessageTimelineBlock)) = [] from h0]
    exact buildViewerCountTimeline_nil _ _
  · intro hne
    rw [buildViewerCountTimeline_length _ _ hne, tenMinAligned]

/-- C2, witness: the amended statement evaluated on one chat event at
0 s and one snapshot at 0 s with 5 viewers (series of five points). -/
theorem viewerSeries_monotone_length_witness :
    List.Chain' (fun a b => a < b)
      ((⟨0, 600, 10, [⟨0, 5⟩, ⟨120, 5⟩, ⟨240, 5⟩, ⟨360, 5⟩, ⟨480, 5⟩],
          5, 5, 5, [], 0⟩ : Report).viewerTimeline.map ViewerCountPoint.time) ∧
      (⟨0, 600, 10, [⟨0, 5⟩, ⟨120, 5⟩, ⟨240, 5⟩, ⟨360, 5⟩, ⟨480, 5⟩],
          5, 5, 5, [], 0⟩ : Report).viewerTimeline.length =
        ceilDiv 600 ReportTimeBlock := by
  have h := viewerSeries_monotone_length none ⟨1, "a".toList, "m".toList, 0⟩ []
    oneSnapshotAt0
    ⟨0, 600, 10, [⟨0, 5⟩, ⟨120, 5⟩, ⟨240, 5⟩, ⟨360, 5⟩, ⟨480, 5⟩], 5, 5, 5, [], 0⟩
    (by simp [generateLivestreamReport, oneSnapshotAt0, minSentAt, maxSentAt,
      MessageTimelineBlock, viewerCountsFor, buildViewerCountTimeline, vctLoop,
      lastSnapshotInBlock, ReportTimeBlock, calculateViewerAnalytics, int64Add,
      int64Wrap, allExactDuplicateBursts, groupBySender, dedupFirst, sortBySentAt,
      insertBySentAt,
      exactDuplicatePass, exactMatchesIn, ExactDuplicateBurstWindow,
      ExactDuplicateBurstMinCount, uniqueSortedTimes, insertTime,
      sortBurstsByCountDesc, insertBurst, duplicateMessagesCount, normalizeChatMessage,
      trimSpace, collapseSpaces, toLowerGo, isRe2Space, isUnicodeSpace])
  refine ⟨h.1, ?_⟩
  have h2 := h.2.2 (by simp [viewerCountsFor, oneSnapshotAt0, ReportTimeBlock])
  simpa using h2

theorem int64Wrap_eq_self {n : Int} (h1 : -9223372036854775808 ≤ n)
    (h2 : n ≤ 9223372036854775807) : int64Wrap n = n := by
  rw [int64Wrap]
  omega

/-- When the viewer counts are nonnegative and their true sum fits in
`int64`, no `+=` step of the Go accumulation wraps: the wrapped fold
equals the mathematical sum. -/
theorem wrapSumFold_eq_sumFold (l : List LivestreamData) :
    ∀ a : Int, (∀ x ∈ l, 0 ≤ x.viewerCount) → 0 ≤ a →
      l.foldl (fun acc vc => acc + vc.viewerCount) a ≤ 9223372036854775807 →
      l.foldl (fun acc vc => int64Add acc vc.viewerCount) a =
        l.foldl (fun acc vc => acc + vc.viewerCount) a := by
  induction l with
  | nil =>
    intro a _ _ _
    rfl
  | cons y ys ih =>
    intro a hnn ha hbound
    simp only [List.foldl_cons] at hbound ⊢
    have hy : 0 ≤ y.viewerCount := hnn y (List.mem_cons_self y ys)
    have hmono : a + y.viewerCount ≤
        ys.foldl (fun acc vc => acc + vc.viewerCount) (a + y.viewerCount) := by
      have := sumFold_ge ys 0 (fun x hx => hnn x (List.mem_cons_of_mem y hx))
        (a + y.viewerCount)
      simpa using this
    have hwrap : int64Add a y.viewerCount = a + y.viewerCount := by
      rw [int64Add]
      exact int64Wrap_eq_self (by omega) (by omega)
    rw [hwrap]
    exact ih (a + y.viewerCount) (fun x hx => hnn x (List.mem_cons_of_mem y hx))
      (by omega) hbound

/-- C9, counterexample: two in-scope inputs falsify the claim.  A
single snapshot with three billion viewers (nonnegative, non-empty
list) makes the computed `lowest` the `math.MaxInt32` sentinel
`2147483647`, which is not the minimum (nor any) of the viewer counts.
And two snapshots of `8·10^18` viewers each (nonnegative and
`int64`-representable) overflow the Go `int` accumulator: the average
wraps negative and `lowest ≤ average` fails as well. -/
theorem viewerAnalytics_claim_counterexample :
    (hugeSnapshot ≠ [] ∧ (∀ vc ∈ hugeSnapshot, 0 ≤ vc.viewerCount) ∧
      (calculateViewerAnalytics hugeSnapshot).2.2 = 2147483647 ∧
      (∀ vc ∈ hugeSnapshot, vc.viewerCount = 3000000000) ∧
      ¬∃ vc ∈ hugeSnapshot,
        vc.viewerCount = (calculateViewerAnalytics hugeSnapshot).2.2) ∧
    (twoHugeSnapshots ≠ [] ∧
      (∀ vc ∈ twoHugeSnapshots,
        0 ≤ vc.viewerCount ∧ vc.viewerCount ≤ 9223372036854775807) ∧
      (calculateViewerAnalytics twoHugeSnapshots).1 = -1223372036854775808 ∧
      (calculateViewerAnalytics twoHugeSnapshots).2.2 = 2147483647 ∧
      (calculateViewerAnalytics twoHugeSnapshots).1 <
        (calculateViewerAnalytics twoHugeSnapshots).2.2) := by
  constructor
  · refine ⟨by simp [hugeSnapshot], by simp [hugeSnapshot], ?_, by simp [hugeSnapshot], ?_⟩
    · simp [calculateViewerAnalytics, hugeSnapshot]
    · simp [calculateViewerAnalytics, hugeSnapshot]
  · refine ⟨by simp [twoHugeSnapshots], by simp [twoHugeSnapshots], ?_, ?_, ?_⟩
    · decide
    · simp [calculateViewerAnalytics, twoHugeSnapshots]
    · decide

/-- C9 (amended): for a non-empty snapshot list with nonnegative viewer
counts whose sum is at most `2^63 - 1` (the Go `int` accumulator does
not overflow), `lowest ≤ average ≤ peak`; `average` is the Go
truncating division of the count sum by the row count; `peak` is the
maximum of the counts; and `lowest` is their minimum provided every
count is at most `2147483647` (the loop initialises the minimum with
`math.MaxInt32`). -/
theorem viewerAnalytics_bounds (vcs : List LivestreamData) (avg peak low : Int)
    (hne : vcs ≠ []) (hnn : ∀ vc ∈ vcs, 0 ≤ vc.viewerCount)
    (hsum : vcs.foldl (fun acc vc => acc + vc.viewerCount) 0 ≤ 9223372036854775807)
    (hA : calculateViewerAnalytics vcs = (avg, peak, low)) :
    low ≤ avg ∧ avg ≤ peak ∧
      avg = Int.tdiv (vcs.foldl (fun acc vc => acc + vc.viewerCount) 0) vcs.length ∧
      (∀ vc ∈ vcs, vc.viewerCount ≤ peak) ∧ (∃ vc ∈ vcs, vc.viewerCount = peak) ∧
      ((∀ vc ∈ vcs, vc.viewerCount ≤ 2147483647) →
        (∀ vc ∈ vcs, low ≤ vc.viewerCount) ∧ ∃ vc ∈ vcs, vc.viewerCount = low) := by
  rw [calculateViewerAnalytics, if_neg (by simpa [List.isEmpty_iff] using hne)] at hA
  obtain ⟨havg, hpeak, hlow⟩ : _ ∧ _ ∧ _ := by
    simpa [Prod.ext_iff] using hA.symm
  rw [wrapSumFold_eq_sumFold vcs 0 hnn (le_refl 0) hsum] at havg
  obtain ⟨y, ys, rfl⟩ := List.exists_cons_of_ne_nil hne
  have hlen : (0 : Int) < (y :: ys).length := by
    simp only [List.length_cons]
    positivity
  have hpeak_mem : ∀ vc ∈ y :: ys, vc.viewerCount ≤ peak := by
    intro vc hvc
    rw [hpeak]
    exact peakFold_ge_mem _ vc hvc 0
  have hpeak_ex : ∃ vc ∈ y :: ys, vc.viewerCount = peak := by
    rcases peakFold_eq_init_or_mem (y :: ys) 0 with h0 | ⟨x, hx, hxe⟩
    · refine ⟨y, List.mem_cons_self y ys, le_antisymm ?_ ?_⟩
      · rw [hpeak, h0]
        exact le_trans (hpeak_mem y (List.mem_cons_self y ys)) (by rw [hpeak, h0])
      · rw [hpeak, h0]
        exact hnn y (List.mem_cons_self y ys)
    · exact ⟨x, hx, by rw [hpeak, hxe]⟩
  have hlow_mem : ∀ vc ∈ y :: ys, low ≤ vc.viewerCount := by
    intro vc hvc
    rw [hlow]
    exact lowFold_le_mem _ vc hvc 2147483647
  have hlow_nonneg : 0 ≤ low := by
    rcases lowFold_eq_init_or_mem (y :: ys) 2147483647 with h0 | ⟨x, hx, hxe⟩
    · rw [hlow, h0]
      norm_num
    · rw [hlow, hxe]
      exact hnn x hx
  have hsum_nonneg : (0 : Int) ≤ (y :: ys).foldl (fun acc vc => acc + vc.viewerCount) 0 := by
    have := sumFold_ge (y :: ys) 0 (fun x hx => hnn x hx) 0
    simpa using this
  have havg_low : low ≤ avg := by
    rw [havg]
    refine le_tdiv_bound hlen hlow_nonneg ?_
    have := sumFold_ge (y :: ys) low hlow_mem 0
    calc low * ((y :: ys).length : Int) = 0 + ((y :: ys).length : Int) * low := by ring
    _ ≤ _ := this
  have havg_peak : avg ≤ peak := by
    rw [havg]
    refine tdiv_le_bound hsum_nonneg hlen ?_
    have := sumFold_le (y :: ys) peak hpeak_mem 0
    calc (y :: ys).foldl (fun acc vc => acc + vc.viewerCount) 0 ≤
        0 + ((y :: ys).length : Int) * peak := this
    _ = ((y :: ys).length : Int) * peak := by ring
  refine ⟨havg_low, havg_peak, havg, hpeak_mem, hpeak_ex, ?_⟩
  intro hcap
  refine ⟨hlow_mem, ?_⟩
  rcases lowFold_eq_init_or_mem (y :: ys) 2147483647 with h0 | ⟨x, hx, hxe⟩
  · refine ⟨y, List.mem_cons_self y ys, le_antisymm ?_ ?_⟩
    · rw [hlow, h0]
      exact hcap y (List.mem_cons_self y ys)
    · exact hlow_mem y (List.mem_cons_self y ys)
  · exact ⟨x, hx, by rw [hlow, hxe]⟩

/-- C9, witness: the amended statement evaluated on two snapshots with
5 and 7 viewers (average 6, peak 7, lowest 5). -/
theorem viewerAnalytics_bounds_witness :
    (5 : Int) ≤ 6 ∧ (6 : Int) ≤ 7 ∧
      (6 : Int) = Int.tdiv (([⟨0, 5⟩, ⟨60, 7⟩] : List LivestreamData).foldl
        (fun acc vc => acc + vc.viewerCount) 0)
        ([⟨0, 5⟩, ⟨60, 7⟩] : List LivestreamData).length ∧
      (∀ vc ∈ ([⟨0, 5⟩, ⟨60, 7⟩] : List LivestreamData), vc.viewerCount ≤ 7) ∧
      (∃ vc ∈ ([⟨0, 5⟩, ⟨60, 7⟩] : List LivestreamData), vc.viewerCount = 7) ∧
      ((∀ vc ∈ ([⟨0, 5⟩, ⟨60, 7⟩] : List LivestreamData), vc.viewerCount ≤ 2147483647) →
        (∀ vc ∈ ([⟨0, 5⟩, ⟨60, 7⟩] : List LivestreamData), 5 ≤ vc.viewerCount) ∧
          ∃ vc ∈ ([⟨0, 5⟩, ⟨60, 7⟩] : List LivestreamData), vc.viewerCount = 5) :=
  viewerAnalytics_bounds [⟨0, 5⟩, ⟨60, 7⟩] 6 7 5 (by simp)
    (by intro vc hvc; fin_cases hvc <;> norm_num)
    (by simp [List.foldl])
    (by simp [calculateViewerAnalytics, int64Add, int64Wrap]; norm_num [Int.tdiv])

/-- C3: an ingested chat event's stored `livestream_id` is non-null iff
the registry entry for the channel exists, reports `is_live`, and the
elapsed time since `fetched_at` is at most
`FetchInterval + LivestreamFreshnessLeeway` (120 s + 20 s); in
particular an event arriving strictly after
`fetched_at + poll_interval + leeway` is stored with a null
`livestream_id`. -/
theorem chatEvent_attribution_freshness (entry : Option LatestLivestreamInfo) (now : Nat) :
    (attributedLivestreamID entry now ≠ none ↔
        ∃ info, entry = some info ∧ info.isLive = true ∧
          now - info.fetchTime ≤ FetchInterval + LivestreamFreshnessLeeway) ∧
      (∀ info, entry = some info →
        info.fetchTime + FetchInterval + LivestreamFreshnessLeeway < now →
        attributedLivestreamID entry now = none) := by
  cases entry with
  | none =>
    refine ⟨⟨fun hne => absurd rfl hne, ?_⟩, ?_⟩
    · rintro ⟨info, h, -, -⟩
      cases h
    · intro info h
      cases h
  | some info =>
    by_cases hc : info.isLive = true ∧
        now - info.fetchTime ≤ FetchInterval + LivestreamFreshnessLeeway
    · refine ⟨⟨fun _ => ⟨info, rfl, hc.1, hc.2⟩, fun _ => ?_⟩, ?_⟩
      · simp only [attributedLivestreamID]
        rw [if_pos hc]
        simp
      · intro info' h hlate
        injection h with h
        subst h
        exfalso
        have h1 := hc.2
        simp only [FetchInterval, LivestreamFreshnessLeeway] at h1 hlate
        omega
    · refine ⟨⟨fun hne => ?_, ?_⟩, ?_⟩
      · exfalso
        apply hne
        simp only [attributedLivestreamID]
        rw [if_neg hc]
      · rintro ⟨info', h, hl, hf⟩
        injection h with h
        subst h
        exact absurd ⟨hl, hf⟩ hc
      · intro info' h hlate
        injection h with h
        subst h
        simp only [attributedLivestreamID]
        rw [if_neg hc]

/-- C3, witness: registry stamped at 0 s with livestream 9 live; an
event at 60 s is attributed, an event at 141 s is stored null. -/
theorem chatEvent_attribution_freshness_witness :
    attributedLivestreamID (some ⟨9, 0, true⟩) 60 ≠ none ∧
      attributedLivestreamID (some ⟨9, 0, true⟩) 141 = none :=
  ⟨(chatEvent_attribution_freshness (some ⟨9, 0, true⟩) 60).1.mpr
      ⟨⟨9, 0, true⟩, rfl, rfl, by simp [FetchInterval, LivestreamFreshnessLeeway]⟩,
    (chatEvent_attribution_freshness (some ⟨9, 0, true⟩) 141).2 ⟨9, 0, true⟩ rfl
      (by simp [FetchInterval, LivestreamFreshnessLeeway])⟩

/-- C4: for sender `alice`'s time-ordered events `"GG"`, `"gg  "`,
`"GG"` at 0 s, 2 s, 4 s (her only events), report generation with the
default thresholds records exactly one exact-duplicate burst
`{username := alice, content := "GG", count := 3,
timestamps := [0, 2, 4]}` (unique-sorted) — the scan advances past the
emitted burst anchored at index 0 with 3 matches to index 3 — and the
report's `duplicate_messages_count` is 2. -/
theorem aliceBurst_scenario :
    (generateLivestreamReport none aliceEvents []).map
        (fun r => (r.exactDuplicateBursts, r.duplicateMessagesCount)) =
      .ok ([⟨"alice".toList, "GG".toList, 3, [0, 2, 4]⟩], 2) := by
  simp [generateLivestreamReport, aliceEvents, allExactDuplicateBursts, groupBySender,
    dedupFirst, sortBySentAt, insertBySentAt, exactDuplicatePass, exactMatchesIn,
    uniqueSortedTimes, insertTime, sortBurstsByCountDesc, insertBurst,
    duplicateMessagesCount, normalizeChatMessage, trimSpace, collapseSpaces,
    toLowerGo, isRe2Space, isUnicodeSpace, ExactDuplicateBurstWindow,
    ExactDuplicateBurstMinCount, MessageTimelineBlock, minSentAt, maxSentAt,
    calculateViewerAnalytics, viewerCountsFor, buildViewerCountTimeline, vctLoop,
    lastSnapshotInBlock, ReportTimeBlock, Except.map]

/-! ## Lemmas about the Jaccard similarity -/

theorem toFinset_card_pos {l : List (List Char)} (h : l ≠ []) : 0 < l.toFinset.card := by
  rcases l with - | ⟨x, xs⟩
  · cases h rfl
  · have hx : x ∈ (x :: xs).toFinset := by simp
    exact Finset.card_pos.mpr ⟨x, hx⟩

theorem jaccard_union_ne_zero {a b : List Char} (ha : goFields a ≠ []) :
    (goFields a).toFinset.card + (goFields b).toFinset.card -
        ((goFields a).toFinset ∩ (goFields b).toFinset).card ≠ 0 := by
  have h1 : 0 < (goFields a).toFinset.card := toFinset_card_pos ha
  have h2 : ((goFields a).toFinset ∩ (goFields b).toFinset).card ≤
      (goFields b).toFinset.card :=
    Finset.card_le_card Finset.inter_subset_right
  omega

/-- C7: `jaccard` tokenises each input on white space and, with both
token multisets non-empty, returns `|intersection| / |union|` over the
two word sets; when both inputs tokenise to empty it returns `1`, when
exactly one tokenises to empty it returns `0`; `jaccard(s,s) = 1` for
every non-empty `s`; and `jaccard` is symmetric. -/
theorem jaccard_properties (a b s : List Char) (_hs : s ≠ []) :
    jaccardSimilarity s s = 1 ∧
      jaccardSimilarity a b = jaccardSimilarity b a ∧
      (goFields a = [] ∧ goFields b = [] → jaccardSimilarity a b = 1) ∧
      (goFields a = [] ∧ goFields b ≠ [] → jaccardSimilarity a b = 0) ∧
      (goFields a ≠ [] ∧ goFields b = [] → jaccardSimilarity a b = 0) ∧
      (goFields a ≠ [] → goFields b ≠ [] →
        jaccardSimilarity a b =
          ((((goFields a).toFinset ∩ (goFields b).toFinset).card : ℚ) /
            ((((goFields a).toFinset ∪ (goFields b).toFinset).card : ℚ)))) := by
  have key : ∀ x y : List Char, goFields x ≠ [] → goFields y ≠ [] →
      jaccardSimilarity x y =
        ((((goFields x).toFinset ∩ (goFields y).toFinset).card : ℚ) /
          ((((goFields x).toFinset ∪ (goFields y).toFinset).card : ℚ))) := by
    intro x y hx hy
    rw [jaccardSimilarity]
    simp only [List.isEmpty_iff, hx, hy, and_false, false_and, if_false, false_or,
      or_false]
    rw [if_neg (jaccard_union_ne_zero hx)]
    have hcard : (goFields x).toFinset.card + (goFields y).toFinset.card -
        ((goFields x).toFinset ∩ (goFields y).toFinset).card =
        ((goFields x).toFinset ∪ (goFields y).toFinset).card := by
      have h := Finset.card_union_add_card_inter (goFields x).toFinset
        (goFields y).toFinset
      omega
    rw [hcard]
  refine ⟨?_, ?_, ?_, ?_, ?_, key a b⟩
  · by_cases h : goFields s = []
    · rw [jaccardSimilarity]
      simp [List.isEmpty_iff, h]
    · rw [key s s h h]
      have : 0 < ((goFields s).toFinset ∩ (goFields s).toFinset).card := by
        rw [Finset.inter_self]
        exact toFinset_card_pos h
      rw [Finset.inter_self, Finset.union_self]
      exact div_self (by positivity)
  · by_cases h1 : goFields a = [] <;> by_cases h2 : goFields b = []
    · rw [jaccardSimilarity, jaccardSimilarity]
      simp [List.isEmpty_iff, h1, h2]
    · rw [jaccardSimilarity, jaccardSimilarity]
      simp [List.isEmpty_iff, h1, h2]
    · rw [jaccardSimilarity, jaccardSimilarity]
      simp [List.isEmpty_iff, h1, h2]
    · rw [key a b h1 h2, key b a h2 h1, Finset.inter_comm, Finset.union_comm]
  · rintro ⟨h1, h2⟩
    rw [jaccardSimilarity]
    simp [List.isEmpty_iff, h1, h2]
  · rintro ⟨h1, h2⟩
    rw [jaccardSimilarity]
    simp [List.isEmpty_iff, h1, h2]
  · rintro ⟨h1, h2⟩
    rw [jaccardSimilarity]
    simp [List.isEmpty_iff, h1, h2]

/-- C7, witness: `jaccard("gg","gg") = 1` and symmetry on two concrete
strings, through the claim's theorem. -/
theorem jaccard_properties_witness :
    jaccardSimilarity "gg".toList "gg".toList = 1 ∧
      jaccardSimilarity "a b".toList "b c".toList =
        jaccardSimilarity "b c".toList "a b".toList :=
  ⟨(jaccard_properties "a b".toList "b c".toList "gg".toList (by simp)).1,
    (jaccard_properties "a b".toList "b c".toList "gg".toList (by simp)).2.1⟩

/-! ## Lemmas towards idempotence of the normaliser -/

theorem charOfNat_toNat {n : Nat} (h : n < 55296) : (Char.ofNat n).toNat = n := by
  rw [Char.ofNat, dif_pos (Or.inl h : n.isValidChar)]
  rfl

theorem toLowerGo_idem (c : Char) : toLowerGo (toLowerGo c) = toLowerGo c := by
  by_cases h : 65 ≤ c.toNat ∧ c.toNat ≤ 90
  · have h1 : toLowerGo c = Char.ofNat (c.toNat + 32) := by rw [toLowerGo, if_pos h]
    have ht : (Char.ofNat (c.toNat + 32)).toNat = c.toNat + 32 :=
      charOfNat_toNat (by omega)
    rw [h1, toLowerGo, if_neg (by rw [ht]; omega)]
  · have h1 : toLowerGo c = c := by rw [toLowerGo, if_neg h]
    rw [h1, h1]

theorem toLowerGo_space : toLowerGo ' ' = ' ' := rfl

theorem mem_dropWhile {p : Char → Bool} {l : List Char} {c : Char}
    (h : c ∈ l.dropWhile p) : c ∈ l :=
  (List.dropWhile_suffix p).subset h

theorem mem_trimSpace {l : List Char} {c : Char} (h : c ∈ trimSpace l) : c ∈ l := by
  rw [trimSpace] at h
  rw [List.mem_reverse] at h
  have h2 := mem_dropWhile h
  rw [List.mem_reverse] at h2
  exact mem_dropWhile h2

theorem mem_collapseSpaces {c : Char} :
    ∀ (b : Bool) (l : List Char), c ∈ collapseSpaces b l → c = ' ' ∨ c ∈ l := by
  intro b l
  induction l generalizing b with
  | nil => intro h; cases h
  | cons d rest ih =>
    intro h
    rw [collapseSpaces] at h
    by_cases hd : isRe2Space d
    · rw [if_pos hd] at h
      cases b with
      | true =>
        rcases ih true h with h' | h'
        · exact Or.inl h'
        · exact Or.inr (List.mem_cons_of_mem d h')
      | false =>
        rcases List.mem_cons.mp h with h' | h'
        · exact Or.inl h'
        · rcases ih true h' with h'' | h''
          · exact Or.inl h''
          · exact Or.inr (List.mem_cons_of_mem d h'')
    · rw [if_neg hd] at h
      rcases List.mem_cons.mp h with h' | h'
      · subst h'
        exact Or.inr (List.mem_cons_self c rest)
      · rcases ih false h' with h'' | h''
        · exact Or.inl h''
        · exact Or.inr (List.mem_cons_of_mem d h'')

theorem map_toLowerGo_fixed {l : List Char} (h : ∀ c ∈ l, toLowerGo c = c) :
    l.map toLowerGo = l := by
  induction l with
  | nil => rfl
  | cons c rest ih =>
    rw [List.map_cons, h c (List.mem_cons_self c rest),
      ih (fun d hd => h d (List.mem_cons_of_mem c hd))]

theorem lower_fixed_of_normalized (l : List Char) :
    ∀ c ∈ normalizeChatMessage l, toLowerGo c = c := by
  intro c hc
  rcases mem_collapseSpaces false _ hc with h | h
  · rw [h]
    exact toLowerGo_space
  · have h2 := mem_trimSpace h
    rw [List.mem_map] at h2
    obtain ⟨d, -, rfl⟩ := h2
    exact toLowerGo_idem d

theorem re2_implies_unicode {c : Char} (h : isRe2Space c = true) :
    isUnicodeSpace c = true := by
  simp only [isRe2Space, decide_eq_true_eq] at h
  simp only [isUnicodeSpace, decide_eq_true_eq]
  omega

theorem dropWhile_idem (p : Char → Bool) (l : List Char) :
    (l.dropWhile p).dropWhile p = l.dropWhile p := by
  induction l with
  | nil => rfl
  | cons c rest ih =>
    rw [List.dropWhile_cons]
    by_cases h : p c
    · rw [if_pos h]
      exact ih
    · rw [if_neg h, List.dropWhile_cons, if_neg h]

theorem dropWhile_eq_self_of_head {p : Char → Bool} {l : List Char} {c : Char}
    (hh : l.head? = some c) (hc : p c = false) : l.dropWhile p = l := by
  cases l with
  | nil => cases hh
  | cons d rest =>
    rw [List.head?_cons, Option.some.injEq] at hh
    subst hh
    rw [List.dropWhile_cons, if_neg (by simp [hc])]

theorem head_false_of_dropWhile_self {p : Char → Bool} {l : List Char} {c : Char}
    (hl : l.dropWhile p = l) (hh : l.head? = some c) : p c = false := by
  cases l with
  | nil => cases hh
  | cons d rest =>
    rw [List.head?_cons, Option.some.injEq] at hh
    subst hh
    by_contra hp
    rw [List.dropWhile_cons, if_pos (by simpa using hp)] at hl
    have hlen := congrArg List.length hl
    have h2 : (rest.dropWhile p).length ≤ rest.length :=
      (List.dropWhile_suffix p).length_le
    simp at hlen
    omega

theorem dropWhile_self_of_prefix {p : Char → Bool} {m x : List Char}
    (hm : m.dropWhile p = m) (hx : x <+: m) : x.dropWhile p = x := by
  cases x with
  | nil => rfl
  | cons c r =>
    obtain ⟨t, ht⟩ := hx
    have hh : m.head? = some c := by
      rw [← ht]
      rfl
    have hc := head_false_of_dropWhile_self hm hh
    rw [List.dropWhile_cons, if_neg (by simp [hc])]

theorem trimSpace_dropWhile_self (l : List Char) :
    (trimSpace l).dropWhile isUnicodeSpace = trimSpace l := by
  rw [trimSpace]
  have hsuf : (l.dropWhile isUnicodeSpace).reverse.dropWhile isUnicodeSpace <:+
      (l.dropWhile isUnicodeSpace).reverse := List.dropWhile_suffix isUnicodeSpace
  have hpre := List.reverse_prefix.mpr hsuf
  rw [List.reverse_reverse] at hpre
  exact dropWhile_self_of_prefix (dropWhile_idem isUnicodeSpace l) hpre

theorem trimSpace_reverse_dropWhile_self (l : List Char) :
    (trimSpace l).reverse.dropWhile isUnicodeSpace = (trimSpace l).reverse := by
  rw [trimSpace, List.reverse_reverse]
  exact dropWhile_idem _ _

theorem getLast?_cons_of_ne_nil {a : Char} {x : List Char} (h : x ≠ []) :
    (a :: x).getLast? = x.getLast? := by
  cases x with
  | nil => cases h rfl
  | cons b l => exact List.getLast?_cons_cons

theorem collapseSpaces_getLast? {c : Char} (hc : isRe2Space c = false) :
    ∀ (s : List Char) (b : Bool), s.getLast? = some c →
      (collapseSpaces b s).getLast? = some c := by
  intro s
  induction s with
  | nil => intro b h; cases h
  | cons d rest ih =>
    intro b h
    cases rest with
    | nil =>
      rw [List.getLast?_singleton, Option.some.injEq] at h
      subst h
      rw [collapseSpaces, if_neg (by simp [hc])]
      rfl
    | cons d2 rest2 =>
      rw [List.getLast?_cons_cons] at h
      have htail : ∀ b', (collapseSpaces b' (d2 :: rest2)).getLast? = some c :=
        fun b' => ih b' h
      have hne : ∀ b', collapseSpaces b' (d2 :: rest2) ≠ [] := by
        intro b' hnil
        have := htail b'
        rw [hnil] at this
        cases this
      rw [collapseSpaces]
      by_cases hd : isRe2Space d
      · rw [if_pos hd]
        cases b with
        | true => exact htail true
        | false =>
          rw [if_neg (by simp)]
          rw [getLast?_cons_of_ne_nil (hne true)]
          exact htail true
      · rw [if_neg hd]
        rw [getLast?_cons_of_ne_nil (hne false)]
        exact htail false

theorem collapseSpaces_cons_space_false {c : Char} {rest : List Char}
    (hc : isRe2Space c = true) :
    collapseSpaces false (c :: rest) = ' ' :: collapseSpaces true rest := by
  rw [collapseSpaces, if_pos hc, if_neg (by simp)]

theorem collapseSpaces_cons_space_true {c : Char} {rest : List Char}
    (hc : isRe2Space c = true) :
    collapseSpaces true (c :: rest) = collapseSpaces true rest := by
  rw [collapseSpaces, if_pos hc, if_pos rfl]

theorem collapseSpaces_cons_nonspace {c : Char} {rest : List Char} (b : Bool)
    (hc : isRe2Space c = false) :
    collapseSpaces b (c :: rest) = c :: collapseSpaces false rest := by
  rw [collapseSpaces, if_neg (by simp [hc])]

theorem space_isRe2Space : isRe2Space ' ' = true := rfl

theorem collapseSpaces_idem (s : List Char) :
    collapseSpaces false (collapseSpaces false s) = collapseSpaces false s ∧
      collapseSpaces true (collapseSpaces true s) = collapseSpaces true s := by
  induction s with
  | nil => exact ⟨rfl, rfl⟩
  | cons c rest ih =>
    cases hc : isRe2Space c with
    | true =>
      constructor
      · rw [collapseSpaces_cons_space_false hc,
          collapseSpaces_cons_space_false space_isRe2Space, ih.2]
      · rw [collapseSpaces_cons_space_true hc, ih.2]
    | false =>
      constructor
      · rw [collapseSpaces_cons_nonspace false hc,
          collapseSpaces_cons_nonspace false hc, ih.1]
      · rw [collapseSpaces_cons_nonspace true hc,
          collapseSpaces_cons_nonspace true hc, ih.1]

theorem collapseSpaces_dropWhile_self {s : List Char}
    (hs : s.dropWhile isUnicodeSpace = s) :
    (collapseSpaces false s).dropWhile isUnicodeSpace = collapseSpaces false s := by
  cases s with
  | nil => rfl
  | cons c rest =>
    have hc : isUnicodeSpace c = false :=
      head_false_of_dropWhile_self hs List.head?_cons
    have hc2 : isRe2Space c = false := by
      cases hre : isRe2Space c with
      | true =>
        rw [re2_implies_unicode hre] at hc
        cases hc
      | false => rfl
    rw [collapseSpaces_cons_nonspace false hc2]
    exact dropWhile_eq_self_of_head List.head?_cons hc

/-- C10: chat-message normalisation is idempotent: normalising an
already-normalised string returns it unchanged, for every string. -/
theorem normalize_idempotent (l : List Char) :
    normalizeChatMessage (normalizeChatMessage l) = normalizeChatMessage l := by
  have hlower : (normalizeChatMessage l).map toLowerGo = normalizeChatMessage l :=
    map_toLowerGo_fixed (lower_fixed_of_normalized l)
  have hhead : (normalizeChatMessage l).dropWhile isUnicodeSpace =
      normalizeChatMessage l := by
    rw [normalizeChatMessage]
    exact collapseSpaces_dropWhile_self (trimSpace_dropWhile_self _)
  have hlast : (normalizeChatMessage l).reverse.dropWhile isUnicodeSpace =
      (normalizeChatMessage l).reverse := by
    rcases hs : trimSpace (l.map toLowerGo) with - | ⟨c1, rest1⟩
    · rw [normalizeChatMessage, hs]
      rfl
    · obtain ⟨c0, hc0⟩ : ∃ c, (trimSpace (l.map toLowerGo)).getLast? = some c := by
        rw [hs]
        exact ⟨(c1 :: rest1).getLast (by simp), List.getLast?_eq_getLast _ _⟩
      have hc0u : isUnicodeSpace c0 = false := by
        refine head_false_of_dropWhile_self
          (trimSpace_reverse_dropWhile_self (l.map toLowerGo)) ?_
        rw [List.head?_reverse]
        exact hc0
      have hc0r : isRe2Space c0 = false := by
        cases hre : isRe2Space c0 with
        | true =>
          rw [re2_implies_unicode hre] at hc0u
          cases hc0u
        | false => rfl
      have hlastT : (normalizeChatMessage l).getLast? = some c0 :=
        collapseSpaces_getLast? hc0r _ false hc0
      refine dropWhile_eq_self_of_head ?_ hc0u
      rw [List.head?_reverse]
      exact hlastT
  have htrim : trimSpace (normalizeChatMessage l) = normalizeChatMessage l := by
    rw [trimSpace, hhead, hlast, List.reverse_reverse]
  show collapseSpaces false
      (trimSpace ((normalizeChatMessage l).map toLowerGo)) = normalizeChatMessage l
  rw [hlower, htrim]
  show collapseSpaces false (collapseSpaces false (trimSpace (l.map toLowerGo))) =
    collapseSpaces false (trimSpace (l.map toLowerGo))
  exact (collapseSpaces_idem _).1

end KickMonitor
